import Mathlib

/-!
Shallow embedding of the core of the read-with-ai application: the
parallel batch translation engine (`services/translationService.ts`) and
the RAG orchestration service (`enhancedRagService.ts`), together with
theorems checking the specification's claims against the embedded code.

Modelling conventions:
* JavaScript strings are modelled as Lean `String`s; the string
  manipulation primitives the code uses (`trim`, `split`, `startsWith`,
  `slice`, `substring`, `toLowerCase`, `includes`) are implemented over
  character lists with JavaScript semantics (UTF-16 code units are
  identified with characters, which agrees on the material the claims
  touch).
* Asynchronous model/embedding calls are abstracted as `Except Unit α`
  oracle values (or functions producing them): `.error ()` models the
  call throwing, `.ok v` models it resolving with `v`.
* JavaScript numbers that enter arithmetic (embedding coordinates,
  similarity scores) are modelled as real numbers.
* Wall-clock timestamps (`Date.now()`) are passed in as parameters or
  elided where they only decorate diagnostic records.
-/

namespace ReadAI

/-! ### JavaScript string primitives over character lists -/

/-- Whitespace for the purposes of `trim` and `\s`. -/
def isWS (c : Char) : Bool := c.isWhitespace

/-- Trim whitespace from both ends of a character list. -/
def trimChars (l : List Char) : List Char :=
  ((l.dropWhile isWS).reverse.dropWhile isWS).reverse

/-- JavaScript `String.prototype.trim`. -/
def jsTrim (s : String) : String := String.mk (trimChars s.data)

/-- Splitting worker: `fuel` bounds the recursion; `fuel = length + 1`
always suffices because every step consumes at least one character. -/
def splitOnFuel (sep : List Char) : Nat → List Char → List Char → List (List Char)
  | 0, acc, rest => [acc.reverse ++ rest]
  | _ + 1, acc, [] => [acc.reverse]
  | fuel + 1, acc, l@(c :: cs) =>
    if sep.isPrefixOf l then
      acc.reverse :: splitOnFuel sep fuel [] (l.drop sep.length)
    else
      splitOnFuel sep fuel (c :: acc) cs

/-- JavaScript `String.prototype.split` with a non-empty separator. -/
def jsSplit (s sep : String) : List String :=
  (splitOnFuel sep.data (s.data.length + 1) [] s.data).map String.mk

/-- JavaScript `String.prototype.startsWith`. -/
def jsStartsWith (s pre : String) : Bool := pre.data.isPrefixOf s.data

/-- JavaScript `String.prototype.slice(n)`. -/
def jsDrop (s : String) (n : Nat) : String := String.mk (s.data.drop n)

/-- JavaScript `String.prototype.substring(0, n)`. -/
def jsTake (s : String) (n : Nat) : String := String.mk (s.data.take n)

/-- JavaScript `String.prototype.toLowerCase` (character-wise). -/
def jsToLower (s : String) : String := String.mk (s.data.map Char.toLower)

/-- JavaScript `String.prototype.includes`. -/
def jsIncludes (s sub : String) : Bool := decide (sub.data <:+: s.data)

/-- JavaScript `String.prototype.length` (code units as characters). -/
def jsLength (s : String) : Nat := s.data.length

/-! ### Data model (`types.ts`) -/

/-- The translation provenance metadata that `translateChunksParallel`
attaches to a translated chunk (the `translatedAt` ISO timestamp is
elided as wall-clock data). -/
structure TransMeta where
  originalLanguage : String
  translatedTo : String
  originalContent : String
  deriving Repr, DecidableEq

/-- `Chunk` from `types.ts`. -/
structure Chunk where
  id : String
  bookId : String
  pageNumber : Nat
  content : String
  embedding : List ℝ
  metadata : Option TransMeta := none

instance : Inhabited Chunk := ⟨{ id := "", bookId := "", pageNumber := 0, content := "", embedding := [] }⟩

/-- `Book` from `types.ts` (the `fileBuffer` binary payload is opaque,
modelled by a `Nat` handle; book-level `metadata` only records
provenance strings and is elided). -/
structure Book where
  id : String
  title : String
  chunks : List Chunk
  fileBuffer : Option Nat := none
  pageCount : Option Nat := none
  totalPages : Option Nat := none
  fullText : Option String := none

/-- `ChatMessage.role` from `types.ts`. -/
inductive ChatRole
  | user
  | assistant
  deriving Repr, DecidableEq

/-- The role string used when formatting messages. -/
def ChatRole.text : ChatRole → String
  | .user => "user"
  | .assistant => "assistant"

/-- `ChatMessage` from `types.ts`. -/
structure ChatMessage where
  role : ChatRole
  content : String
  deriving Repr, DecidableEq

namespace Trans

/-! ### `translationService.ts` — response parsing

`translateBatch` parses the model response by splitting on the
delimiter token and stripping `[SEGMENT n]` / `[END SEGMENT n]`
markers (the two JavaScript regex replaces). -/

/-- Length of a `[SEGMENT n]\s*` match starting at the head of `l`
(regex `\[SEGMENT \d+\]\s*`), if any. -/
def segMarkerLen (l : List Char) : Option Nat :=
  if ("[SEGMENT ".data).isPrefixOf l then
    let r := l.drop 9
    let ds := r.takeWhile Char.isDigit
    if ds.length = 0 then none
    else
      match r.drop ds.length with
      | ']' :: rest => some (9 + ds.length + 1 + (rest.takeWhile isWS).length)
      | _ => none
  else none

/-- Length of a `[END SEGMENT n]` match starting at the head of `l`. -/
def endMarkerCore (l : List Char) : Option Nat :=
  if ("[END SEGMENT ".data).isPrefixOf l then
    let r := l.drop 13
    let ds := r.takeWhile Char.isDigit
    if ds.length = 0 then none
    else
      match r.drop ds.length with
      | ']' :: _ => some (13 + ds.length + 1)
      | _ => none
  else none

/-- Length of a `\s*\[END SEGMENT \d+\]` match starting at the head of
`l`: the whitespace run is consumed only when the marker follows it
(a shorter run cannot match since `[` is not whitespace). -/
def endMarkerLen (l : List Char) : Option Nat :=
  let ws := l.takeWhile isWS
  match endMarkerCore (l.drop ws.length) with
  | some n => some (ws.length + n)
  | none => none

/-- Global regex replacement with the empty string: scan left to right,
dropping every match.  `fuel = length` suffices since every step
consumes at least one character. -/
def stripMarkersFuel (marker : List Char → Option Nat) : Nat → List Char → List Char
  | 0, l => l
  | _ + 1, [] => []
  | fuel + 1, c :: cs =>
    match marker (c :: cs) with
    | some n => stripMarkersFuel marker fuel ((c :: cs).drop n)
    | none => c :: stripMarkersFuel marker fuel cs

def stripMarkers (marker : List Char → Option Nat) (l : List Char) : List Char :=
  stripMarkersFuel marker l.length l

/-- One parsed translation segment: `t.trim()`, strip `[SEGMENT n]\s*`,
strip `\s*[END SEGMENT n]`, `trim()` again. -/
def cleanTranslation (t : String) : String :=
  jsTrim (String.mk (stripMarkers endMarkerLen (stripMarkers segMarkerLen (jsTrim t).data)))

/-! ### `translateBatch` -/

/-- The JavaScript truthiness test `text && text.trim()`. -/
def nonEmptyPred (t : String) : Bool := !(jsTrim t).isEmpty

/-- The texts that actually enter the model request (`nonEmptyTexts`). -/
def translateBatchRequestTexts (texts : List String) : List String :=
  texts.filter nonEmptyPred

/-- The original positions of the requested texts (`nonEmptyIndices`). -/
def translateBatchIdxs (texts : List String) : List Nat :=
  ((texts.enum).filter (fun p => nonEmptyPred p.2)).map (fun p => p.1)

/-- The `[SEGMENT i] ... [END SEGMENT i]` framed request body. -/
def translateBatchSegmentsText (texts : List String) : String :=
  String.intercalate "\n\n"
    (((translateBatchRequestTexts texts).enum).map (fun p =>
      "[SEGMENT " ++ toString (p.1 + 1) ++ "]\n" ++ p.2 ++ "\n[END SEGMENT " ++ toString (p.1 + 1) ++ "]"))

/-- `nonEmptyIndices.forEach((originalIndex, i) => { if (i < translations.length) result[originalIndex] = translations[i]; })` -/
def applyTranslations : List String → List Nat → List String → Nat → List String
  | acc, [], _, _ => acc
  | acc, idx :: rest, translations, i =>
    applyTranslations
      (if i < translations.length then acc.set idx (translations.getD i "") else acc)
      rest translations (i + 1)

/-- `translateBatch` (one batched model call).  `resp` abstracts the
chain invocation: `.error ()` is the model call throwing (caught, with
fallback to the original texts), `.ok response` is the raw response. -/
def translateBatch (texts : List String) (resp : Except Unit String) : List String :=
  if texts.length = 0 then []
  else if (translateBatchRequestTexts texts).length = 0 then texts
  else
    match resp with
    | .error _ => texts
    | .ok response =>
      let translations := (jsSplit response "<<<TRANSLATION_BOUNDARY>>>").map cleanTranslation
      applyTranslations texts (translateBatchIdxs texts) translations 0

/-! ### `translateChunksParallel`

Chunks are grouped into contiguous batches of `s`; each batch's
translated chunks are written into a pre-sized output array at their
global positions `batchIndex * batchSize + i`.  The nondeterministic
completion order of the concurrently running batches is abstracted as
an explicit `order : List Nat` in which the batch writes land; the
bounded-concurrency admission gate only constrains how many batches are
in flight, not which positions they write. -/

/-- The `b`-th batch (`chunks.slice(i, min(i + batchSize, length))`). -/
def batchSlice (chunks : List Chunk) (s b : Nat) : List Chunk :=
  (chunks.drop (b * s)).take s

/-- Number of batches produced by the partition loop, for `0 < s`. -/
def numBatches (s n : Nat) : Nat := (n + s - 1) / s

/-- The content texts of one batch. -/
def batchTexts (chunks : List Chunk) (s b : Nat) : List String :=
  (batchSlice chunks s b).map (fun c => c.content)

/-- The translated texts of batch `b` (`oracle b` is that batch's model
call outcome). -/
def batchResult (chunks : List Chunk) (s : Nat) (oracle : Nat → Except Unit String) (b : Nat) :
    List String :=
  translateBatch (batchTexts chunks s b) (oracle b)

/-- `{...chunk, content: translatedContent, metadata: {...}}`. -/
def mkTranslatedChunk (tl sl : String) (c : Chunk) (newContent : String) : Chunk :=
  { c with content := newContent, metadata := some ⟨sl, tl, c.content⟩ }

/-- The positional writes performed by batch `b`. -/
def batchWrites (chunks : List Chunk) (s : Nat) (oracle : Nat → Except Unit String)
    (tl sl : String) (b : Nat) : List (Nat × Chunk) :=
  ((batchSlice chunks s b).enum).map (fun p =>
    (b * s + p.1, mkTranslatedChunk tl sl p.2 ((batchResult chunks s oracle b).getD p.1 "")))

/-- Perform a list of positional writes on the output array. -/
def setWrites (arr : List (Option Chunk)) (ws : List (Nat × Chunk)) : List (Option Chunk) :=
  ws.foldl (fun a p => a.set p.1 (some p.2)) arr

/-- One completed batch writing its slots. -/
def writeBatch (chunks : List Chunk) (s : Nat) (oracle : Nat → Except Unit String)
    (tl sl : String) (arr : List (Option Chunk)) (b : Nat) : List (Option Chunk) :=
  setWrites arr (batchWrites chunks s oracle tl sl b)

/-- All batches completing in the given order, starting from the
pre-sized array `new Array(chunks.length)`. -/
def runBatches (chunks : List Chunk) (s : Nat) (oracle : Nat → Except Unit String)
    (tl sl : String) (order : List Nat) : List (Option Chunk) :=
  order.foldl (writeBatch chunks s oracle tl sl) (List.replicate chunks.length none)

/-- `translateChunksParallel`: the fully written output array. -/
def translateChunksParallel (chunks : List Chunk) (s : Nat) (oracle : Nat → Except Unit String)
    (tl sl : String) (order : List Nat) : List Chunk :=
  (runBatches chunks s oracle tl sl order).map (fun o => o.getD default)

/-- The chunk that ends up at global position `g` (its batch is `g / s`,
its in-batch position `g % s`). -/
def canonicalChunkAt (chunks : List Chunk) (s : Nat) (oracle : Nat → Except Unit String)
    (tl sl : String) (g : Nat) : Chunk :=
  mkTranslatedChunk tl sl (chunks.getD g default)
    ((batchResult chunks s oracle (g / s)).getD (g % s) "")

/-! ### `translateBook` -/

structure TranslationResult where
  success : Bool
  book : Option Book := none
  error : Option String := none
  translatedPages : Nat

/-- Embedding regeneration in sub-batches of 20
(`generateEmbeddingsBatch` never throws: it has an internal hash-based
fallback, so it is modelled as a total oracle). -/
def embedAll (embedOracle : List String → List (List ℝ)) (contents : List String) :
    List (List ℝ) :=
  ((List.range (numBatches 20 contents.length)).map (fun b =>
    embedOracle ((contents.drop (b * 20)).take 20))).flatten

/-- `translateBook`.  Oracles: `oracle` per-batch model calls,
`embedOracle` embedding regeneration, `pdfOracle` the server-side PDF
generation (on failure the original `fileBuffer` is reused),
`saveOracle` the database save (on failure the top-level catch turns
the run into a structured failure).  `order` abstracts batch completion
order and `now` the `Date.now()` timestamp. -/
def translateBook (book : Book) (targetLanguage sourceLanguage : String) (batchSize : Nat)
    (oracle : Nat → Except Unit String) (embedOracle : List String → List (List ℝ))
    (pdfOracle : Except Unit Nat) (saveOracle : Except Unit Unit)
    (order : List Nat) (now : Nat) : TranslationResult :=
  if book.chunks.length = 0 then
    { success := false, error := some "Invalid book or no content to translate",
      translatedPages := 0 }
  else
    let translatedChunks :=
      translateChunksParallel book.chunks batchSize oracle targetLanguage sourceLanguage order
    let allEmbeddings := embedAll embedOracle (translatedChunks.map (fun c => c.content))
    let chunksWithEmbeddings :=
      (translatedChunks.enum).map (fun p => { p.2 with embedding := allEmbeddings.getD p.1 [] })
    let fileBuffer :=
      match pdfOracle with
      | .ok buf => some buf
      | .error _ => book.fileBuffer
    let translatedBook : Book :=
      { book with
        id := book.id ++ "_" ++ targetLanguage ++ "_" ++ toString now,
        title := book.title ++ " (" ++ targetLanguage ++ ")",
        fileBuffer := fileBuffer,
        totalPages := (book.totalPages).orElse (fun _ => book.pageCount),
        chunks := chunksWithEmbeddings }
    match saveOracle with
    | .error _ =>
      { success := false, error := some "Failed to save translated book to database",
        translatedPages := 0 }
    | .ok _ =>
      { success := true, book := some translatedBook,
        translatedPages := (book.totalPages).getD translatedChunks.length }

end Trans

namespace Rag

/-! ### `enhancedRagService.ts`

The service version with chat-history search and tool selection.
Model and embedding calls are abstracted as `Except Unit` oracles.
`ThoughtProcess` entries (append-only narration with timestamps) are
elided; `ToolUse` records are retained as their tool-name strings,
since the pipeline's control flow is observable through them. -/

/-- A parsed JSON value, the outcome of `JSON.parse` on the
source-selector response.  The model call and the parse are combined
into one oracle: `.error ()` covers both the call throwing and
`JSON.parse` throwing on non-JSON text. -/
inductive Json
  | null
  | bool (b : Bool)
  | num (q : ℚ)
  | str (s : String)
  | arr (xs : List Json)
  | obj (fields : List (String × Json))

/-- First field with the given name. -/
def lookupField : List (String × Json) → String → Option Json
  | [], _ => none
  | (k, v) :: rest, key => if k = key then some v else lookupField rest key

/-- JavaScript property access `parsed.key` (non-objects have none of
the properties we read). -/
def Json.lookup : Json → String → Option Json
  | .obj fields, key => lookupField fields key
  | _, _ => none

/-- LangChain `Document` as built by the service: page content plus the
metadata fields `getOrCreateVectorStore` sets. -/
structure Doc where
  pageContent : String
  pageNumber : Nat
  chunkId : String
  bookId : String
  deriving Repr, DecidableEq

instance : Inhabited Doc := ⟨{ pageContent := "", pageNumber := 0, chunkId := "", bookId := "" }⟩

/-- The two parallel arrays of `InMemoryVectorStore`. -/
structure InMemoryVectorStore where
  documents : List Doc
  embeddings : List (List ℝ)

/-- `cosineSimilarity` (both the store's private method and the local
`cosine` closure in `searchChatHistory` compute exactly this, with the
zero-magnitude guard returning 0).  The dot product is taken over the
common length, which agrees with the JavaScript `reduce` for the
equal-length vectors one embedding model produces. -/
noncomputable def cosineSimilarity (vecA vecB : List ℝ) : ℝ :=
  let dotProduct := (List.zipWith (fun a b => a * b) vecA vecB).sum
  let magnitudeA := Real.sqrt ((vecA.map (fun a => a * a)).sum)
  let magnitudeB := Real.sqrt ((vecB.map (fun b => b * b)).sum)
  if magnitudeA = 0 ∨ magnitudeB = 0 then 0 else dotProduct / (magnitudeA * magnitudeB)

/-- One `{index, similarity, document}` record of `similaritySearch`. -/
structure SimEntry where
  index : Nat
  similarity : ℝ
  doc : Doc

/-- The similarity records for a query embedding
(`this.documents[index]` is modelled with a default for the
out-of-range case that aligned store arrays never hit). -/
noncomputable def simEntries (store : InMemoryVectorStore) (qe : List ℝ) : List SimEntry :=
  (store.embeddings.enum).map (fun p =>
    ⟨p.1, cosineSimilarity qe p.2, store.documents.getD p.1 default⟩)

/-- The stable descending sort `sort((a, b) => b.similarity - a.similarity)`. -/
noncomputable def sortBySimDesc (l : List SimEntry) : List SimEntry :=
  l.mergeSort (fun a b => decide (b.similarity ≤ a.similarity))

/-- `InMemoryVectorStore.similaritySearch`: empty index short-circuits
before the query embedding call (`embedQ` is the outcome of that call;
returning `.ok` without consulting it is what "not invoking the
embedding call" means here); otherwise sort descending, slice to `k`,
apply the 0.3 relevance floor, and project the documents. -/
noncomputable def similaritySearch (store : InMemoryVectorStore) (embedQ : Except Unit (List ℝ))
    (k : Nat) : Except Unit (List Doc) :=
  if store.documents.length = 0 then .ok []
  else
    match embedQ with
    | .error e => .error e
    | .ok queryEmbedding =>
      .ok (((((sortBySimDesc (simEntries store queryEmbedding)).take k).filter
        (fun s => decide ((0.3 : ℝ) < s.similarity))).map (fun s => s.doc)))

/-- The `{useBook, useChat, reason}` decision record. -/
structure SourceSelection where
  useBook : Bool
  useChat : Bool
  reason : String
  deriving Repr, DecidableEq

/-- `decideRetrievalSources`: the `try` block parses the response and
applies a per-field `typeof` check; the `catch` (model call threw, or
the response was not valid JSON) returns the stated defaults. -/
def decideRetrievalSources (resp : Except Unit Json) : SourceSelection :=
  match resp with
  | .error _ => ⟨true, false, "fallback-default"⟩
  | .ok parsed =>
    { useBook :=
        match parsed.lookup "useBook" with
        | some (.bool b) => b
        | _ => true
      useChat :=
        match parsed.lookup "useChat" with
        | some (.bool b) => b
        | _ => false
      reason :=
        match parsed.lookup "reason" with
        | some (.str s) => s
        | _ => "defaulted" }

/-- A `{index, role, content}` chat snippet. -/
structure ChatSnippet where
  index : Nat
  role : ChatRole
  content : String
  deriving Repr, DecidableEq

/-- A windowed message with its position in the original history. -/
structure WindowedMsg where
  idx : Nat
  role : ChatRole
  content : String
  deriving Repr, DecidableEq

instance : Inhabited WindowedMsg := ⟨{ idx := 0, role := .user, content := "" }⟩

/-- The window bound of `searchChatHistory`. -/
def MAX_MESSAGES : Nat := 80

/-- `chatHistory.slice(start).map((m, i) => ({idx: start + i, ...}))`
with `start = max(0, length - 80)` (truncated subtraction). -/
def chatWindow (history : List ChatMessage) : List WindowedMsg :=
  let start := history.length - MAX_MESSAGES
  ((history.drop start).enum).map (fun p => ⟨start + p.1, p.2.role, p.2.content⟩)

/-- The `[role] content` texts handed to the embedding model. -/
def chatTexts (history : List ChatMessage) : List String :=
  (chatWindow history).map (fun m => "[" ++ m.role.text ++ "] " ++ m.content)

/-- The keyword fallback score: 1 for an exact (lower-cased) substring
match plus a 0.05 role bonus for user messages. -/
noncomputable def chatFallbackScore (query : String) (m : WindowedMsg) : ℝ :=
  (if jsIncludes (jsToLower m.content) (jsToLower query) then (1 : ℝ) else 0) +
    (if m.role = .user then (0.05 : ℝ) else 0)

/-- The fallback result: filter positive scores, sort descending,
slice to `k`, project snippets. -/
noncomputable def chatFallbackSnippets (history : List ChatMessage) (query : String) (k : Nat) :
    List ChatSnippet :=
  let scored := (chatWindow history).map (fun m => (m, chatFallbackScore query m))
  ((((scored.filter (fun s => decide ((0 : ℝ) < s.2))).mergeSort
      (fun a b => decide (b.2 ≤ a.2))).take k).map (fun s => ⟨s.1.idx, s.1.role, s.1.content⟩))

/-- `searchChatHistory`.  `dEmb` is the `embedDocuments` call on the
windowed `[role] content` texts (its failure triggers the keyword
fallback); `qEmb` is the subsequent `embedQuery` call, which is outside
the `try` block. -/
noncomputable def searchChatHistory (dEmb : List String → Except Unit (List (List ℝ)))
    (qEmb : Except Unit (List ℝ)) (history : List ChatMessage) (query : String) (k : Nat) :
    Except Unit (List ChatSnippet) :=
  if history.length = 0 then .ok []
  else
    let windowed := chatWindow history
    match dEmb (chatTexts history) with
    | .error _ => .ok (chatFallbackSnippets history query k)
    | .ok docEmbeddings =>
      match qEmb with
      | .error e => .error e
      | .ok queryEmbedding =>
        let similarities :=
          (docEmbeddings.enum).map (fun p => (p.1, cosineSimilarity queryEmbedding p.2))
        .ok (((((similarities.mergeSort (fun a b => decide (b.2 ≤ a.2))).take k).filter
            (fun s => decide ((0.25 : ℝ) < s.2))).map
          (fun s => ⟨(windowed.getD s.1 default).idx, (windowed.getD s.1 default).role,
                     (windowed.getD s.1 default).content⟩)))

/-- The similarity pairs `searchChatHistory` ranks. -/
noncomputable def chatSims (es : List (List ℝ)) (qe : List ℝ) : List (Nat × ℝ) :=
  (es.enum).map (fun p => (p.1, cosineSimilarity qe p.2))

/-- The ranked chat snippets in the specification's reading: filter by
the 0.25 floor on the descending-sorted similarities, then truncate to
`k` (the code slices before filtering; the two agree on a sorted
list). -/
noncomputable def chatRankedSpec (history : List ChatMessage) (es : List (List ℝ))
    (qe : List ℝ) (k : Nat) : List ChatSnippet :=
  ((((chatSims es qe).mergeSort (fun a b => decide (b.2 ≤ a.2))).filter
    (fun s => decide ((0.25 : ℝ) < s.2))).take k).map (fun s =>
      ⟨((chatWindow history).getD s.1 default).idx, ((chatWindow history).getD s.1 default).role,
       ((chatWindow history).getD s.1 default).content⟩)

/-- The query list of `multiQueryRetrieval`: split the generated text
on newlines, keep non-blank lines, slice to 3, prepend the original
query.  `gen` is the query-generation model call; its exception
propagates (there is no `catch` around `queryChain.invoke`). -/
def multiQueryQueries (query : String) (gen : Except Unit String) : Except Unit (List String) :=
  match gen with
  | .error e => .error e
  | .ok generatedQueries =>
    .ok (query :: ((jsSplit generatedQueries "\n").filter (fun q => !(jsTrim q).isEmpty)).take 3)

/-- The deduplication key `doc.metadata.chunkId || doc.pageContent.substring(0, 50)`. -/
def docKey (d : Doc) : String :=
  if d.chunkId = "" then jsTake d.pageContent 50 else d.chunkId

/-- JavaScript `Map.set`: update in place if present, else append. -/
def mapInsert (m : List (String × Doc)) (key : String) (d : Doc) : List (String × Doc) :=
  if m.any (fun p => p.1 = key) then m.map (fun p => if p.1 = key then (p.1, d) else p)
  else m ++ [(key, d)]

/-- Fold one search's documents into the deduplication map. -/
def insertDocs (m : List (String × Doc)) (docs : List Doc) : List (String × Doc) :=
  docs.foldl (fun acc d => mapInsert acc (docKey d) d) m

/-- The per-query search loop.  The second component is the tool-use
log (a `Vector Search` entry is pushed before each search executes, so
it is present even when that search throws). -/
noncomputable def mqrLoop (store : InMemoryVectorStore) (embedQ : String → Except Unit (List ℝ)) :
    List String → List (String × Doc) → List String →
      Except Unit (List (String × Doc)) × List String
  | [], acc, log => (.ok acc, log)
  | q :: rest, acc, log =>
    match similaritySearch store (embedQ q) 5 with
    | .error e => (.error e, log ++ ["Vector Search"])
    | .ok docs => mqrLoop store embedQ rest (insertDocs acc docs) (log ++ ["Vector Search"])

/-- `multiQueryRetrieval` with its tool-use log (the `Query Generation`
entry is pushed before the generation call, so a throwing call leaves
exactly that entry). -/
noncomputable def multiQueryRetrieval (store : InMemoryVectorStore)
    (embedQ : String → Except Unit (List ℝ)) (query : String) (gen : Except Unit String) :
    Except Unit (List Doc) × List String :=
  match multiQueryQueries query gen with
  | .error e => (.error e, ["Query Generation"])
  | .ok queries =>
    match mqrLoop store embedQ queries [] ["Query Generation"] with
    | (.error e, log) => (.error e, log)
    | (.ok allDocs, log) => (.ok (allDocs.map (fun p => p.2)), log)

/-- The result record of `generateAnswer` (tool uses as names,
thoughts elided). -/
structure RAGResult where
  answer : String
  toolUses : List String
  relevantChunks : List Chunk
  relevantChatMessages : Option (List ChatSnippet) := none

/-- All the oracles one `generateAnswer` run consumes. -/
structure RagOracles where
  selection : Except Unit Json
  storeEmbed : List String → Except Unit (List (List ℝ))
  queryGen : Except Unit String
  searchEmbed : String → Except Unit (List ℝ)
  chatEmbedDocs : List String → Except Unit (List (List ℝ))
  chatEmbedQuery : Except Unit (List ℝ)
  stream : List String
  localize : Except Unit String

/-- Chunk-to-document conversion in `getOrCreateVectorStore`. -/
def chunkToDoc (c : Chunk) : Doc :=
  ⟨c.content, c.pageNumber, c.id, c.bookId⟩

/-- The vector store built for a book (the process-wide cache is
elided: a single run builds at most one store per book). -/
def buildVectorStore (book : Book) (es : List (List ℝ)) : InMemoryVectorStore :=
  ⟨book.chunks.map chunkToDoc, es⟩

/-- Document-to-chunk conversion for `relevantChunks`
(`temp-${Date.now()}` for a missing id is modelled without the
timestamp). -/
def docToChunk (book : Book) (d : Doc) : Chunk :=
  { id := if d.chunkId = "" then "temp" else d.chunkId
    bookId := book.id
    pageNumber := d.pageNumber
    content := d.pageContent
    embedding := [] }

/-- The fixed no-context answer. -/
def noResultsAnswer : String :=
  "I couldn't find relevant information in the book to answer your question. The topic might not be covered in this text, or it might be phrased differently."

/-- The generic apology used when the localization rewrite also fails. -/
def errorAnswerDefault : String :=
  "I encountered an error while processing your question. Please try again."

/-- The error-path answer: the best-effort localization rewrite, its
own failure swallowed. -/
def errorAnswer (o : RagOracles) : String :=
  match o.localize with
  | .ok s => s
  | .error _ => errorAnswerDefault

/-- The book-retrieval phase of `generateAnswer`: only if `useBook`,
build the store (the `embedDocuments` call may throw) and run
`multiQueryRetrieval`.  Second component is the tool-use log of the
phase. -/
noncomputable def ragDocsPhase (book : Book) (query : String) (o : RagOracles)
    (sel : SourceSelection) : Except Unit (List Doc) × List String :=
  if sel.useBook then
    match o.storeEmbed (book.chunks.map (fun c => c.content)) with
    | .error e => (.error e, [])
    | .ok es => multiQueryRetrieval (buildVectorStore book es) o.searchEmbed query o.queryGen
  else (.ok [], [])

/-- The chat-history phase of `generateAnswer`: only if `useChat` and
the history is non-empty (the `Chat History Search` tool use is pushed
before the call). -/
noncomputable def ragChatPhase (history : List ChatMessage) (query : String) (o : RagOracles)
    (sel : SourceSelection) : Except Unit (List ChatSnippet) × List String :=
  if sel.useChat ∧ history ≠ [] then
    (searchChatHistory o.chatEmbedDocs o.chatEmbedQuery history query 5, ["Chat History Search"])
  else (.ok [], [])

/-- `generateAnswer` (the orchestrator).  The top-level `catch` turns
any exception from the phases into a non-throwing result with the
best-effort localized apology and empty result sets (the
`relevantChatMessages` field is omitted there, hence `none`).  In this
service version the answer synthesizer appends the streamed fragments
directly (`answer += delta` per fragment). -/
noncomputable def generateAnswer (book : Book) (query : String) (history : List ChatMessage)
    (o : RagOracles) : RAGResult :=
  let sel := decideRetrievalSources o.selection
  let docsPhase := ragDocsPhase book query o sel
  let baseTools := "Tool Selection" :: docsPhase.2
  match docsPhase.1 with
  | .error _ =>
    { answer := errorAnswer o, toolUses := baseTools, relevantChunks := [],
      relevantChatMessages := none }
  | .ok relevantDocs =>
    let chatPhase := ragChatPhase history query o sel
    let tools2 := baseTools ++ chatPhase.2
    match chatPhase.1 with
    | .error _ =>
      { answer := errorAnswer o, toolUses := tools2, relevantChunks := [],
        relevantChatMessages := none }
    | .ok chatSnippets =>
      if relevantDocs.length = 0 ∧ chatSnippets.length = 0 then
        { answer := noResultsAnswer, toolUses := tools2, relevantChunks := [],
          relevantChatMessages := some [] }
      else
        { answer := String.join o.stream
          toolUses := tools2 ++ ["Answer Generation"]
          relevantChunks := relevantDocs.map (docToChunk book)
          relevantChatMessages := some chatSnippets }

end Rag

namespace RagV1

/-! ### The `chainOfThoughtReasoning` streaming loop of the earlier
service version (`src/unnamed/part_001`), which normalizes provider
fragments to deltas before emitting them. -/

/-- A callback event: an `onToken` emission or the `onDone` signal. -/
inductive StreamEvent
  | token (t : String)
  | done
  deriving Repr, DecidableEq

/-- The longest-common-prefix length loop
(`while (i < minLen && next.charCodeAt(i) === accumulated.charCodeAt(i)) i++`). -/
def lcpLen : List Char → List Char → Nat
  | c :: cs, d :: ds => if c = d then lcpLen cs ds + 1 else 0
  | _, _ => 0

/-- Delta normalization: if the new fragment extends the accumulation,
emit the suffix; if the accumulation extends the fragment, emit
nothing; otherwise emit the remainder after the longest common
prefix. -/
def normalizeDelta (accumulated next : String) : String :=
  if jsStartsWith next accumulated then jsDrop next (jsLength accumulated)
  else if jsStartsWith accumulated next then ""
  else jsDrop next (lcpLen next.data accumulated.data)

/-- The loop state: the emitted answer, the raw accumulation, and the
callback events fired so far. -/
structure StreamState where
  answer : String
  accumulated : String
  events : List StreamEvent
  deriving Repr, DecidableEq

/-- One iteration of `for await (const chunk of stream)`. -/
def streamStep (st : StreamState) (chunk : String) : StreamState :=
  let delta := normalizeDelta st.accumulated chunk
  if delta.isEmpty then { st with accumulated := chunk }
  else
    { answer := st.answer ++ delta, accumulated := chunk,
      events := st.events ++ [.token delta] }

/-- The whole streaming section of `chainOfThoughtReasoning`: fold the
fragments, fire `onDone` once, then apply the final
`if (!answer && accumulated) answer = accumulated` fixup. -/
def chainOfThoughtStream (fragments : List String) : StreamState :=
  let final := fragments.foldl streamStep ⟨"", "", []⟩
  let closed := { final with events := final.events ++ [.done] }
  if closed.answer.isEmpty && !closed.accumulated.isEmpty then
    { closed with answer := closed.accumulated }
  else closed

end RagV1

/-! ## Theorems -/

namespace Rag

/-! ### Helper lemmas: tool-use logs -/

theorem mqrLoop_log_mono (store : InMemoryVectorStore) (embedQ : String → Except Unit (List ℝ)) :
    ∀ (qs : List String) (acc : List (String × Doc)) (log : List String) (x : String),
      x ∈ log → x ∈ (mqrLoop store embedQ qs acc log).2 := by
  intro qs
  induction qs with
  | nil => intro acc log x hx; exact hx
  | cons q rest ih =>
    intro acc log x hx
    simp only [mqrLoop]
    cases similaritySearch store (embedQ q) 5 with
    | error e => exact List.mem_append_left _ hx
    | ok docs => exact ih _ _ _ (List.mem_append_left _ hx)

theorem mqrLoop_log_mem (store : InMemoryVectorStore) (embedQ : String → Except Unit (List ℝ)) :
    ∀ (qs : List String) (acc : List (String × Doc)) (log : List String) (x : String),
      x ∈ (mqrLoop store embedQ qs acc log).2 → x ∈ log ∨ x = "Vector Search" := by
  intro qs
  induction qs with
  | nil => intro acc log x hx; exact Or.inl hx
  | cons q rest ih =>
    intro acc log x hx
    simp only [mqrLoop] at hx
    cases hs : similaritySearch store (embedQ q) 5 with
    | error e =>
      rw [hs] at hx
      rcases List.mem_append.mp hx with h | h
      · exact Or.inl h
      · exact Or.inr (List.mem_singleton.mp h)
    | ok docs =>
      rw [hs] at hx
      rcases ih _ _ _ hx with h | h
      · rcases List.mem_append.mp h with h' | h'
        · exact Or.inl h'
        · exact Or.inr (List.mem_singleton.mp h')
      · exact Or.inr h

theorem multiQueryRetrieval_snd (store : InMemoryVectorStore)
    (embedQ : String → Except Unit (List ℝ)) (query : String) (queries : List String)
    (gen : Except Unit String) (hq : multiQueryQueries query gen = .ok queries) :
    (multiQueryRetrieval store embedQ query gen).2 =
      (mqrLoop store embedQ queries [] ["Query Generation"]).2 := by
  unfold multiQueryRetrieval
  rw [hq]
  rcases hml : mqrLoop store embedQ queries [] ["Query Generation"] with ⟨res, log⟩
  cases res <;> simp [hml]

theorem multiQueryRetrieval_log_mem (store : InMemoryVectorStore)
    (embedQ : String → Except Unit (List ℝ)) (query : String) (gen : Except Unit String)
    (x : String) (hx : x ∈ (multiQueryRetrieval store embedQ query gen).2) :
    x = "Query Generation" ∨ x = "Vector Search" := by
  cases hq : multiQueryQueries query gen with
  | error e =>
    have : (multiQueryRetrieval store embedQ query gen).2 = ["Query Generation"] := by
      unfold multiQueryRetrieval
      rw [hq]
    rw [this] at hx
    exact Or.inl (List.mem_singleton.mp hx)
  | ok queries =>
    rw [multiQueryRetrieval_snd store embedQ query queries gen hq] at hx
    rcases mqrLoop_log_mem store embedQ queries [] ["Query Generation"] x hx with h | h
    · exact Or.inl (List.mem_singleton.mp h)
    · exact Or.inr h

theorem ragDocsPhase_log_mem (book : Book) (query : String) (o : RagOracles)
    (sel : SourceSelection) (x : String) (hx : x ∈ (ragDocsPhase book query o sel).2) :
    x = "Query Generation" ∨ x = "Vector Search" := by
  unfold ragDocsPhase at hx
  by_cases hb : sel.useBook = true
  · rw [if_pos hb] at hx
    cases he : o.storeEmbed (book.chunks.map (fun c => c.content)) with
    | error e => rw [he] at hx; simp at hx
    | ok es => rw [he] at hx; exact multiQueryRetrieval_log_mem _ _ _ _ x hx
  · rw [if_neg hb] at hx; simp at hx

theorem ragChatPhase_log_mem (history : List ChatMessage) (query : String) (o : RagOracles)
    (sel : SourceSelection) (x : String) (hx : x ∈ (ragChatPhase history query o sel).2) :
    x = "Chat History Search" := by
  unfold ragChatPhase at hx
  split at hx
  · exact List.mem_singleton.mp hx
  · simp at hx

end Rag

/-! ### C3 — streaming delta normalization (part_001 `chainOfThoughtReasoning`) -/

/-- C3: during answer synthesis in the part_001 `chainOfThoughtReasoning`,
streamed provider fragments are normalized to deltas before reaching
`onToken`: a fragment extending the accumulated text emits only the
suffix, a fragment the accumulated text extends emits nothing, and
otherwise the remainder after the longest common prefix is emitted; on
the cumulative fragment sequence "Hel", "Hello", "Hello world" the
emitted tokens are exactly "Hel", "lo", " world", `onDone` fires
exactly once (as the last event), and the returned answer is
"Hello world". -/
theorem C3_stream_delta_normalization :
    (∀ acc next, jsStartsWith next acc = true →
      RagV1.normalizeDelta acc next = jsDrop next (jsLength acc)) ∧
    (∀ acc next, jsStartsWith next acc = false → jsStartsWith acc next = true →
      RagV1.normalizeDelta acc next = "") ∧
    (∀ acc next, jsStartsWith next acc = false → jsStartsWith acc next = false →
      RagV1.normalizeDelta acc next = jsDrop next (RagV1.lcpLen next.data acc.data)) ∧
    RagV1.chainOfThoughtStream ["Hel", "Hello", "Hello world"] =
      { answer := "Hello world", accumulated := "Hello world",
        events := [.token "Hel", .token "lo", .token " world", .done] } := by
  refine ⟨?_, ?_, ?_, by decide⟩
  · intro acc next h; simp [RagV1.normalizeDelta, h]
  · intro acc next h1 h2; simp [RagV1.normalizeDelta, h1, h2]
  · intro acc next h1 h2; simp [RagV1.normalizeDelta, h1, h2]

/-- Witness for C3: the three normalization cases applied at concrete
fragments. -/
theorem C3_stream_delta_normalization_witness :
    (jsStartsWith "Help" "Hel" = true ∧
      RagV1.normalizeDelta "Hel" "Help" = jsDrop "Help" (jsLength "Hel")) ∧
    (jsStartsWith "Hel" "Hello" = false ∧ jsStartsWith "Hello" "Hel" = true ∧
      RagV1.normalizeDelta "Hello" "Hel" = "") ∧
    (jsStartsWith "world" "Hello" = false ∧ jsStartsWith "Hello" "world" = false ∧
      RagV1.normalizeDelta "Hello" "world" = jsDrop "world" (RagV1.lcpLen "world".data "Hello".data)) :=
  ⟨⟨by decide, C3_stream_delta_normalization.1 "Hel" "Help" (by decide)⟩,
   ⟨by decide, by decide, C3_stream_delta_normalization.2.1 "Hello" "Hel" (by decide) (by decide)⟩,
   ⟨by decide, by decide,
     C3_stream_delta_normalization.2.2.1 "Hello" "world" (by decide) (by decide)⟩⟩

/-! ### C9 — source-selection defaulting -/

/-- C9: `decideRetrievalSources` never propagates a parse error: a
throwing model call or invalid JSON yields the defaults
`{useBook: true, useChat: false}`, and when the response parses, each
of `useBook`/`useChat` individually falls back to its default
(`true`/`false`) whenever the parsed property is not a boolean. -/
theorem C9_source_selection_defaulting :
    (∀ e, Rag.decideRetrievalSources (.error e) =
      { useBook := true, useChat := false, reason := "fallback-default" }) ∧
    (∀ parsed,
      (Rag.decideRetrievalSources (.ok parsed)).useBook =
        (match parsed.lookup "useBook" with
          | some (.bool b) => b
          | _ => true) ∧
      (Rag.decideRetrievalSources (.ok parsed)).useChat =
        (match parsed.lookup "useChat" with
          | some (.bool b) => b
          | _ => false)) ∧
    Rag.decideRetrievalSources (.ok (.str "not an object")) =
      { useBook := true, useChat := false, reason := "defaulted" } ∧
    Rag.decideRetrievalSources
        (.ok (.obj [("useBook", .num 1), ("useChat", .bool true), ("reason", .str "r")])) =
      { useBook := true, useChat := true, reason := "r" } := by
  refine ⟨fun e => rfl, fun parsed => ⟨rfl, rfl⟩, rfl, rfl⟩

/-! ### C4 — query expansion failure semantics (corrected) -/

/-- C4 counterexample: when the query-generation model call throws, the
retrieval stage is aborted with the exception — `multiQueryRetrieval`
returns the error and no vector search is ever executed — contradicting
"never aborts the retrieval stage with an exception". -/
theorem C4_counterexample :
    (Rag.multiQueryRetrieval ⟨[], []⟩ (fun _ => .error ()) "q" (.error ())).1 = .error () ∧
    "Vector Search" ∉ (Rag.multiQueryRetrieval ⟨[], []⟩ (fun _ => .error ()) "q" (.error ())).2 := by
  constructor
  · rfl
  · intro h
    have : (Rag.multiQueryRetrieval ⟨[], []⟩ (fun _ => .error ()) "q" (.error ())).2 =
        ["Query Generation"] := rfl
    rw [this] at h
    simp at h

/-- C4 as amended: whenever the query-generation call returns (however
malformed or empty its text), the executed query list is the original
query followed by at most three parsed lines — so the retrieval stage
always searches, starting with the original query — while a throwing
query-generation call propagates its exception out of
`multiQueryRetrieval` (it is caught only by `generateAnswer`'s
top-level handler). -/
theorem C4_amended_query_expansion :
    (∀ query g, Rag.multiQueryQueries query (.ok g) =
      .ok (query :: ((jsSplit g "\n").filter (fun q => !(jsTrim q).isEmpty)).take 3)) ∧
    (∀ store embedQ query g,
      "Vector Search" ∈ (Rag.multiQueryRetrieval store embedQ query (.ok g)).2) ∧
    (∀ query e, Rag.multiQueryQueries query (.error e) = .error e) ∧
    (∀ store embedQ query e,
      (Rag.multiQueryRetrieval store embedQ query (.error e)).1 = .error e) := by
  refine ⟨fun query g => rfl, ?_, fun query e => rfl, fun store embedQ query e => rfl⟩
  intro store embedQ query g
  rw [Rag.multiQueryRetrieval_snd store embedQ query
    (query :: ((jsSplit g "\n").filter (fun q => !(jsTrim q).isEmpty)).take 3) (.ok g) rfl]
  simp only [Rag.mqrLoop]
  cases hs : Rag.similaritySearch store (embedQ query) 5 with
  | error e =>
    simp
  | ok docs =>
    exact Rag.mqrLoop_log_mono store embedQ _ _ _ _ (by simp)

/-! ### C5 — chat-history search fallback (corrected) -/

/-- C5 counterexample: when embedding the windowed messages succeeds
but the subsequent `embedQuery` call (which sits outside the `try`
block) throws, `searchChatHistory` propagates the error instead of
returning a snippet list — so "searchChatHistory never throws" fails
as stated. -/
theorem C5_counterexample :
    Rag.searchChatHistory (fun _ => .ok [[1]]) (.error ()) [⟨.user, "hi"⟩] "q" 5 =
      .error () := rfl

/-- C5 as amended: when embedding the windowed messages fails,
`searchChatHistory` returns the keyword-containment fallback list
without propagating the error; in the fallback score an exact
(lower-cased) substring match outranks any non-matching message, and a
0.05 role bonus favors user messages.  (The never-throws guarantee
does not extend to the separate query-embedding call, per the
counterexample.) -/
theorem C5_amended_chat_fallback (dEmb : List String → Except Unit (List (List ℝ)))
    (qEmb : Except Unit (List ℝ)) (history : List ChatMessage) (query : String) (k : Nat)
    (hne : ¬ history.length = 0)
    (hfail : dEmb (Rag.chatTexts history) = .error ()) :
    Rag.searchChatHistory dEmb qEmb history query k =
      .ok (Rag.chatFallbackSnippets history query k) ∧
    (∀ m m' : Rag.WindowedMsg,
      jsIncludes (jsToLower m.content) (jsToLower query) = true →
      jsIncludes (jsToLower m'.content) (jsToLower query) = false →
      Rag.chatFallbackScore query m' < Rag.chatFallbackScore query m) ∧
    (∀ i i' c, Rag.chatFallbackScore query ⟨i, .user, c⟩ =
      Rag.chatFallbackScore query ⟨i', .assistant, c⟩ + 0.05) := by
  refine ⟨?_, ?_, ?_⟩
  · unfold Rag.searchChatHistory
    rw [if_neg hne]
    simp only [hfail]
  · intro m m' h h'
    have hm : Rag.chatFallbackScore query m =
        1 + (if m.role = .user then (0.05 : ℝ) else 0) := by
      simp [Rag.chatFallbackScore, h]
    have hm' : Rag.chatFallbackScore query m' =
        0 + (if m'.role = .user then (0.05 : ℝ) else 0) := by
      simp [Rag.chatFallbackScore, h']
    rw [hm, hm']
    split_ifs <;> norm_num
  · intro i i' c
    simp only [Rag.chatFallbackScore]
    norm_num
    decide

/-- Witness for C5 (amended): a one-message history whose windowed
embedding fails falls back to the keyword snippet list. -/
theorem C5_amended_chat_fallback_witness :
    ¬ ([(⟨.user, "hello there"⟩ : ChatMessage)].length = 0) ∧
    (fun (_ : List String) => (Except.error () : Except Unit (List (List ℝ))))
        (Rag.chatTexts [⟨.user, "hello there"⟩]) = .error () ∧
    Rag.searchChatHistory (fun _ => .error ()) (.ok []) [⟨.user, "hello there"⟩] "hello" 5 =
      .ok (Rag.chatFallbackSnippets [⟨.user, "hello there"⟩] "hello" 5) :=
  ⟨by decide, rfl,
    (C5_amended_chat_fallback (fun _ => .error ()) (.ok []) [⟨.user, "hello there"⟩]
      "hello" 5 (by decide) rfl).1⟩

/-! ### Sorted take/filter exchange -/

theorem takeWhile_take_comm {α} (p : α → Bool) :
    ∀ (l : List α) (k : Nat), (l.take k).takeWhile p = (l.takeWhile p).take k := by
  intro l
  induction l with
  | nil => intro k; simp
  | cons a t ih =>
    intro k
    cases k with
    | zero => simp
    | succ k' =>
      simp only [List.take_succ_cons, List.takeWhile_cons]
      cases hp : p a
      · simp
      · simp [List.take_succ_cons, ih k']

theorem filter_eq_takeWhile_of_sorted {α} (r : α → α → Prop) (p : α → Bool)
    (hmono : ∀ a b, r a b → p b = true → p a = true) :
    ∀ (l : List α), l.Pairwise r → l.filter p = l.takeWhile p := by
  intro l
  induction l with
  | nil => intro _; rfl
  | cons a t ih =>
    intro hp
    rcases List.pairwise_cons.mp hp with ⟨ha, ht⟩
    cases hpa : p a with
    | true => simp [List.filter_cons, List.takeWhile_cons, hpa, ih ht]
    | false =>
      have hall : List.filter p t = [] := by
        refine List.filter_eq_nil_iff.mpr (fun b hb hpb => ?_)
        have := hmono a b (ha b hb) hpb
        rw [hpa] at this
        exact Bool.false_ne_true this
      simp [List.filter_cons, List.takeWhile_cons, hpa, hall]

theorem take_filter_of_sorted {α} (r : α → α → Prop) (p : α → Bool)
    (hmono : ∀ a b, r a b → p b = true → p a = true)
    (l : List α) (hl : l.Pairwise r) (k : Nat) :
    (l.take k).filter p = (l.filter p).take k := by
  rw [filter_eq_takeWhile_of_sorted r p hmono (l.take k)
        (List.Pairwise.sublist (List.take_sublist k l) hl),
      filter_eq_takeWhile_of_sorted r p hmono l hl,
      takeWhile_take_comm]

namespace Rag

theorem sortBySimDesc_sorted (l : List SimEntry) :
    (sortBySimDesc l).Pairwise (fun a b => b.similarity ≤ a.similarity) := by
  have h := @List.sorted_mergeSort SimEntry
    (fun a b => decide (b.similarity ≤ a.similarity))
    (fun a b c hab hbc => by
      simp only [decide_eq_true_eq] at *
      exact le_trans hbc hab)
    (fun a b => by
      simp only [Bool.or_eq_true, decide_eq_true_eq]
      exact le_total b.similarity a.similarity)
    l
  exact h.imp (fun hab => by simpa using hab)

theorem simPairs_sorted (l : List (Nat × ℝ)) :
    (l.mergeSort (fun a b => decide (b.2 ≤ a.2))).Pairwise (fun a b => b.2 ≤ a.2) := by
  have h := @List.sorted_mergeSort (Nat × ℝ)
    (fun a b => decide (b.2 ≤ a.2))
    (fun a b c hab hbc => by
      simp only [decide_eq_true_eq] at *
      exact le_trans hbc hab)
    (fun a b => by
      simp only [Bool.or_eq_true, decide_eq_true_eq]
      exact le_total b.2 a.2)
    l
  exact h.imp (fun hab => by simpa using hab)

end Rag

/-! ### C6 — relevance floor, ordering and truncation of `similaritySearch` -/

/-- C6: on an empty index `similaritySearch` returns `.ok []` without
consulting the query-embedding call (the result is the same even when
that call would throw); on an aligned store it returns exactly the
entries whose cosine similarity clears the 0.3 floor, in descending
similarity order, truncated to at most `k` — i.e. although the code
slices to `k` before filtering, the result equals filtering the
descending-sorted entries by the floor and then truncating. -/
theorem C6_similaritySearch_floor_order :
    (∀ (store : Rag.InMemoryVectorStore) (embedQ : Except Unit (List ℝ)) (k : Nat),
      store.documents = [] → Rag.similaritySearch store embedQ k = .ok []) ∧
    (∀ (store : Rag.InMemoryVectorStore) (qe : List ℝ) (k : Nat),
      store.documents.length = store.embeddings.length →
      Rag.similaritySearch store (.ok qe) k =
        .ok ((((Rag.sortBySimDesc (Rag.simEntries store qe)).filter
          (fun s => decide ((0.3 : ℝ) < s.similarity))).take k).map (fun s => s.doc))) ∧
    (∀ (store : Rag.InMemoryVectorStore) (qe : List ℝ) (k : Nat),
      (((Rag.sortBySimDesc (Rag.simEntries store qe)).filter
          (fun s => decide ((0.3 : ℝ) < s.similarity))).take k).length ≤ k ∧
      (∀ s ∈ ((Rag.sortBySimDesc (Rag.simEntries store qe)).filter
          (fun s => decide ((0.3 : ℝ) < s.similarity))).take k, (0.3 : ℝ) < s.similarity) ∧
      (((Rag.sortBySimDesc (Rag.simEntries store qe)).filter
          (fun s => decide ((0.3 : ℝ) < s.similarity))).take k).Pairwise
        (fun a b => b.similarity ≤ a.similarity)) := by
  refine ⟨?_, ?_, ?_⟩
  · intro store embedQ k hempty
    unfold Rag.similaritySearch
    rw [if_pos (by rw [hempty]; rfl)]
  · intro store qe k hlen
    unfold Rag.similaritySearch
    by_cases h0 : store.documents.length = 0
    · rw [if_pos h0]
      have hemb : store.embeddings = [] := List.length_eq_zero.mp (hlen ▸ h0)
      have hse : Rag.simEntries store qe = [] := by
        unfold Rag.simEntries
        rw [hemb]
        rfl
      rw [hse]
      simp [Rag.sortBySimDesc]
    · rw [if_neg h0]
      exact congrArg (fun l => Except.ok (List.map (fun s : Rag.SimEntry => s.doc) l))
        (take_filter_of_sorted
          (fun a b : Rag.SimEntry => b.similarity ≤ a.similarity)
          (fun s => decide ((0.3 : ℝ) < s.similarity))
          (fun a b hr hp => by
            simp only [decide_eq_true_eq] at *
            exact lt_of_lt_of_le hp hr)
          (Rag.sortBySimDesc (Rag.simEntries store qe))
          (Rag.sortBySimDesc_sorted (Rag.simEntries store qe)) k)
  · intro store qe k
    refine ⟨List.length_take_le k _, ?_, ?_⟩
    · intro s hs
      have := List.of_mem_filter (List.take_subset k _ hs)
      simpa using this
    · exact List.Pairwise.sublist
        ((List.take_sublist k _).trans (List.filter_sublist _))
        (Rag.sortBySimDesc_sorted (Rag.simEntries store qe))

/-- Witness for C6: the empty-store case with a throwing embedding
oracle, and a one-document aligned store. -/
theorem C6_similaritySearch_witness :
    ((⟨[], []⟩ : Rag.InMemoryVectorStore).documents = [] ∧
      Rag.similaritySearch ⟨[], []⟩ (.error ()) 5 = .ok []) ∧
    ((⟨[default], [[1]]⟩ : Rag.InMemoryVectorStore).documents.length =
        (⟨[default], [[1]]⟩ : Rag.InMemoryVectorStore).embeddings.length ∧
      Rag.similaritySearch ⟨[default], [[1]]⟩ (.ok [1]) 5 =
        .ok ((((Rag.sortBySimDesc (Rag.simEntries ⟨[default], [[1]]⟩ [1])).filter
          (fun s => decide ((0.3 : ℝ) < s.similarity))).take 5).map (fun s => s.doc))) :=
  ⟨⟨rfl, C6_similaritySearch_floor_order.1 ⟨[], []⟩ (.error ()) 5 rfl⟩,
   ⟨rfl, C6_similaritySearch_floor_order.2.1 ⟨[default], [[1]]⟩ [1] 5 rfl⟩⟩

/-! ### C7 — chat-history windowing -/

namespace Rag

theorem chatWindow_getElem? (history : List ChatMessage) (j : Nat) :
    (chatWindow history)[j]? =
      (history[history.length - MAX_MESSAGES + j]?).map
        (fun m => ⟨history.length - MAX_MESSAGES + j, m.role, m.content⟩) := by
  unfold chatWindow
  rw [List.getElem?_map, List.getElem?_enum, List.getElem?_drop]
  cases history[history.length - MAX_MESSAGES + j]? <;> rfl

theorem chatWindow_length (history : List ChatMessage) :
    (chatWindow history).length = history.length - (history.length - MAX_MESSAGES) := by
  unfold chatWindow
  simp

theorem chatWindow_mem (history : List ChatMessage) (w : WindowedMsg)
    (hw : w ∈ chatWindow history) :
    history.length - MAX_MESSAGES ≤ w.idx ∧ w.idx < history.length ∧
      history[w.idx]? = some ⟨w.role, w.content⟩ := by
  rcases List.mem_iff_getElem?.mp hw with ⟨j, hj⟩
  rw [chatWindow_getElem? history j] at hj
  cases hm : history[history.length - MAX_MESSAGES + j]? with
  | none => rw [hm] at hj; simp at hj
  | some m =>
    rw [hm] at hj
    have hw' : w = ⟨history.length - MAX_MESSAGES + j, m.role, m.content⟩ :=
      (Option.some.injEq _ _ ▸ hj).symm
    subst hw'
    refine ⟨Nat.le_add_right _ _, (List.getElem?_eq_some.mp hm).1, ?_⟩
    rw [hm]

end Rag

/-- C7: `searchChatHistory` only considers the most recent 80 messages
(the window's length is `min 80 |history|` and each windowed entry
carries its position in the original history), embeds each windowed
message as `[role] content`, and in the embedding-success path ranks by
cosine similarity with the 0.25 floor, returns at most `k` snippets
(`generateAnswer` passes the default `k = 5`), and each returned
snippet's `index` is the message's position in the original,
unwindowed history, with `role`/`content` equal to that original
message's fields. -/
theorem C7_searchChatHistory_windowing
    (dEmb : List String → Except Unit (List (List ℝ))) (qEmb : Except Unit (List ℝ))
    (history : List ChatMessage) (query : String) (k : Nat) (es : List (List ℝ)) (qe : List ℝ)
    (hne : ¬ history.length = 0)
    (hd : dEmb (Rag.chatTexts history) = .ok es)
    (hq : qEmb = .ok qe)
    (hlen : es.length = (Rag.chatWindow history).length) :
    (Rag.chatWindow history).length = min Rag.MAX_MESSAGES history.length ∧
    Rag.chatTexts history =
      (Rag.chatWindow history).map (fun m => "[" ++ m.role.text ++ "] " ++ m.content) ∧
    Rag.searchChatHistory dEmb qEmb history query k = .ok (Rag.chatRankedSpec history es qe k) ∧
    (Rag.chatRankedSpec history es qe k).length ≤ k ∧
    (∀ snip ∈ Rag.chatRankedSpec history es qe k,
      history.length - Rag.MAX_MESSAGES ≤ snip.index ∧ snip.index < history.length ∧
      history[snip.index]? = some ⟨snip.role, snip.content⟩) ∧
    (∀ p ∈ ((Rag.chatSims es qe).mergeSort (fun a b => decide (b.2 ≤ a.2))).filter
        (fun s => decide ((0.25 : ℝ) < s.2)), (0.25 : ℝ) < p.2) := by
  have hwin : ∀ p : Nat × ℝ, p ∈ (Rag.chatSims es qe).mergeSort
      (fun a b => decide (b.2 ≤ a.2)) → p.1 < (Rag.chatWindow history).length := by
    intro p hp
    have hp' : p ∈ Rag.chatSims es qe :=
      (List.mergeSort_perm (Rag.chatSims es qe) _).mem_iff.mp hp
    unfold Rag.chatSims at hp'
    rcases List.mem_map.mp hp' with ⟨q, hq', hqp⟩
    have : es[q.1]? = some q.2 := List.mem_enum_iff_getElem?.mp hq'
    have h1 : q.1 < es.length := (List.getElem?_eq_some.mp this).1
    rw [← hqp]
    exact hlen ▸ h1
  refine ⟨?_, rfl, ?_, ?_, ?_, ?_⟩
  · rw [Rag.chatWindow_length]
    omega
  · unfold Rag.searchChatHistory
    rw [if_neg hne, hd, hq]
    exact congrArg (fun l => Except.ok (List.map (fun s : Nat × ℝ =>
        (⟨((Rag.chatWindow history).getD s.1 default).idx,
          ((Rag.chatWindow history).getD s.1 default).role,
          ((Rag.chatWindow history).getD s.1 default).content⟩ : Rag.ChatSnippet)) l))
      (take_filter_of_sorted
        (fun a b : Nat × ℝ => b.2 ≤ a.2)
        (fun s => decide ((0.25 : ℝ) < s.2))
        (fun a b hr hp => by
          simp only [decide_eq_true_eq] at *
          exact lt_of_lt_of_le hp hr)
        ((Rag.chatSims es qe).mergeSort (fun a b => decide (b.2 ≤ a.2)))
        (Rag.simPairs_sorted (Rag.chatSims es qe)) k)
  · unfold Rag.chatRankedSpec
    rw [List.length_map]
    exact List.length_take_le _ _
  · intro snip hsnip
    unfold Rag.chatRankedSpec at hsnip
    rcases List.mem_map.mp hsnip with ⟨p, hp, hps⟩
    have hp1 : p ∈ ((Rag.chatSims es qe).mergeSort (fun a b => decide (b.2 ≤ a.2))) :=
      (List.filter_sublist _).subset (List.take_subset _ _ hp)
    have hplt : p.1 < (Rag.chatWindow history).length := hwin p hp1
    obtain ⟨w, hw⟩ : ∃ w, (Rag.chatWindow history)[p.1]? = some w := by
      cases hc : (Rag.chatWindow history)[p.1]? with
      | none =>
        exact absurd ((List.getElem?_eq_none_iff).mp hc) (by omega)
      | some w => exact ⟨w, rfl⟩
    have hwmem : w ∈ Rag.chatWindow history := List.mem_iff_getElem?.mpr ⟨p.1, hw⟩
    have hgetD : (Rag.chatWindow history).getD p.1 default = w := by
      rw [List.getD_eq_getElem?_getD, hw]
      rfl
    rcases Rag.chatWindow_mem history w hwmem with ⟨hlo, hhi, hmsg⟩
    rw [← hps, hgetD]
    exact ⟨hlo, hhi, hmsg⟩
  · intro p hp
    have := List.of_mem_filter hp
    simpa using this

/-- Witness for C7: a one-message history with successful embedding
oracles. -/
theorem C7_searchChatHistory_windowing_witness :
    ¬ ([(⟨.user, "a"⟩ : ChatMessage)].length = 0) ∧
    (fun (_ : List String) => (Except.ok [[(1 : ℝ)]] : Except Unit (List (List ℝ))))
        (Rag.chatTexts [⟨.user, "a"⟩]) = .ok [[(1 : ℝ)]] ∧
    ([[(1 : ℝ)]] : List (List ℝ)).length = (Rag.chatWindow [⟨.user, "a"⟩]).length ∧
    Rag.searchChatHistory (fun _ => .ok [[(1 : ℝ)]]) (.ok [(1 : ℝ)]) [⟨.user, "a"⟩] "a" 5 =
      .ok (Rag.chatRankedSpec [⟨.user, "a"⟩] [[(1 : ℝ)]] [(1 : ℝ)] 5) :=
  ⟨by decide, rfl, rfl,
    (C7_searchChatHistory_windowing (fun _ => .ok [[(1 : ℝ)]]) (.ok [(1 : ℝ)])
      [⟨.user, "a"⟩] "a" 5 [[(1 : ℝ)]] [(1 : ℝ)] (by decide) rfl rfl rfl).2.2.1⟩

/-! ### C2 — early exit with no context -/

/-- C2: if after source selection the book-retrieval and chat-history
phases together yield zero passages and zero snippets,
`generateAnswer` returns the fixed could-not-find answer with empty
`relevantChunks` and empty `relevantChatMessages`, and the answer
synthesizer (`chainOfThoughtReasoning`, the only generation call that
produces the final answer) is never invoked: no `Answer Generation`
tool use is recorded and the result does not depend on the streamed
answer fragments at all. -/
theorem C2_no_context_early_exit (book : Book) (query : String) (history : List ChatMessage)
    (o : Rag.RagOracles)
    (hdocs : (Rag.ragDocsPhase book query o (Rag.decideRetrievalSources o.selection)).1 = .ok [])
    (hchat :
      (Rag.ragChatPhase history query o (Rag.decideRetrievalSources o.selection)).1 = .ok []) :
    Rag.generateAnswer book query history o =
      { answer := Rag.noResultsAnswer,
        toolUses := "Tool Selection" ::
          ((Rag.ragDocsPhase book query o (Rag.decideRetrievalSources o.selection)).2 ++
           (Rag.ragChatPhase history query o (Rag.decideRetrievalSources o.selection)).2),
        relevantChunks := [], relevantChatMessages := some [] } ∧
    "Answer Generation" ∉ (Rag.generateAnswer book query history o).toolUses ∧
    (∀ fragments, Rag.generateAnswer book query history { o with stream := fragments } =
      Rag.generateAnswer book query history o) := by
  have hmain : ∀ (o' : Rag.RagOracles),
      (Rag.ragDocsPhase book query o' (Rag.decideRetrievalSources o'.selection)).1 = .ok [] →
      (Rag.ragChatPhase history query o' (Rag.decideRetrievalSources o'.selection)).1 = .ok [] →
      Rag.generateAnswer book query history o' =
        { answer := Rag.noResultsAnswer,
          toolUses := "Tool Selection" ::
            ((Rag.ragDocsPhase book query o' (Rag.decideRetrievalSources o'.selection)).2 ++
             (Rag.ragChatPhase history query o' (Rag.decideRetrievalSources o'.selection)).2),
          relevantChunks := [], relevantChatMessages := some [] } := by
    intro o' hd hc
    unfold Rag.generateAnswer
    simp only [hd, hc]
    simp
  refine ⟨hmain o hdocs hchat, ?_, ?_⟩
  · rw [hmain o hdocs hchat]
    intro hmem
    rcases List.mem_cons.mp hmem with h | h
    · simp at h
    · rcases List.mem_append.mp h with h' | h'
      · rcases Rag.ragDocsPhase_log_mem book query o _ _ h' with h'' | h'' <;> simp at h''
      · have := Rag.ragChatPhase_log_mem history query o _ _ h'
        simp at this
  · intro fragments
    exact (hmain { o with stream := fragments } hdocs hchat).trans (hmain o hdocs hchat).symm

/-- Witness for C2: a selection that declines both sources yields empty
retrieval and chat phases, and the run returns the fixed answer. -/
theorem C2_no_context_early_exit_witness :
    (Rag.ragDocsPhase { id := "b", title := "t", chunks := [] } "q"
      { selection := .ok (.obj [("useBook", .bool false), ("useChat", .bool false)]),
        storeEmbed := fun _ => .error (), queryGen := .error (),
        searchEmbed := fun _ => .error (), chatEmbedDocs := fun _ => .error (),
        chatEmbedQuery := .error (), stream := [], localize := .error () }
      (Rag.decideRetrievalSources
        (.ok (.obj [("useBook", .bool false), ("useChat", .bool false)])))).1 = .ok [] ∧
    (Rag.ragChatPhase [] "q"
      { selection := .ok (.obj [("useBook", .bool false), ("useChat", .bool false)]),
        storeEmbed := fun _ => .error (), queryGen := .error (),
        searchEmbed := fun _ => .error (), chatEmbedDocs := fun _ => .error (),
        chatEmbedQuery := .error (), stream := [], localize := .error () }
      (Rag.decideRetrievalSources
        (.ok (.obj [("useBook", .bool false), ("useChat", .bool false)])))).1 = .ok [] ∧
    Rag.generateAnswer { id := "b", title := "t", chunks := [] } "q" []
      { selection := .ok (.obj [("useBook", .bool false), ("useChat", .bool false)]),
        storeEmbed := fun _ => .error (), queryGen := .error (),
        searchEmbed := fun _ => .error (), chatEmbedDocs := fun _ => .error (),
        chatEmbedQuery := .error (), stream := [], localize := .error () } =
      { answer := Rag.noResultsAnswer, toolUses := ["Tool Selection"],
        relevantChunks := [], relevantChatMessages := some [] } := by
  refine ⟨rfl, rfl, ?_⟩
  exact (C2_no_context_early_exit { id := "b", title := "t", chunks := [] } "q" []
    { selection := .ok (.obj [("useBook", .bool false), ("useChat", .bool false)]),
      storeEmbed := fun _ => .error (), queryGen := .error (),
      searchEmbed := fun _ => .error (), chatEmbedDocs := fun _ => .error (),
      chatEmbedQuery := .error (), stream := [], localize := .error () } rfl rfl).1

/-! ### Translation service: `translateBatch` lemmas -/

namespace Trans

theorem applyTranslations_length :
    ∀ (idxs : List Nat) (acc tr : List String) (i : Nat),
      (applyTranslations acc idxs tr i).length = acc.length := by
  intro idxs
  induction idxs with
  | nil => intro acc tr i; rfl
  | cons idx rest ih =>
    intro acc tr i
    simp only [applyTranslations]
    rw [ih]
    split <;> simp

theorem applyTranslations_getElem?_not_mem :
    ∀ (idxs : List Nat) (acc tr : List String) (i g : Nat),
      g ∉ idxs → (applyTranslations acc idxs tr i)[g]? = acc[g]? := by
  intro idxs
  induction idxs with
  | nil => intro acc tr i g _; rfl
  | cons idx rest ih =>
    intro acc tr i g hg
    simp only [applyTranslations]
    rw [ih _ _ _ _ (fun h => hg (List.mem_cons_of_mem _ h))]
    split
    · apply List.getElem?_set_ne
      intro h
      exact hg (by rw [← h]; exact List.mem_cons_self _ _)
    · rfl

theorem mem_translateBatchIdxs {texts : List String} {g : Nat} :
    g ∈ translateBatchIdxs texts ↔ ∃ t, texts[g]? = some t ∧ nonEmptyPred t = true := by
  unfold translateBatchIdxs
  constructor
  · intro h
    rcases List.mem_map.mp h with ⟨p, hp, hpg⟩
    rcases List.mem_filter.mp hp with ⟨hpe, hppred⟩
    exact ⟨p.2, hpg ▸ List.mem_enum_iff_getElem?.mp hpe, hppred⟩
  · rintro ⟨t, ht, hpred⟩
    exact List.mem_map.mpr
      ⟨(g, t), List.mem_filter.mpr ⟨List.mem_enum_iff_getElem?.mpr ht, hpred⟩, rfl⟩

theorem translateBatch_error (texts : List String) (e : Unit) :
    translateBatch texts (.error e) = texts := by
  unfold translateBatch
  by_cases h0 : texts.length = 0
  · rw [if_pos h0]
    exact (List.length_eq_zero.mp h0).symm
  · rw [if_neg h0]
    by_cases h1 : (translateBatchRequestTexts texts).length = 0
    · rw [if_pos h1]
    · rw [if_neg h1]

theorem translateBatch_length (texts : List String) (resp : Except Unit String) :
    (translateBatch texts resp).length = texts.length := by
  unfold translateBatch
  by_cases h0 : texts.length = 0
  · rw [if_pos h0, h0]
    rfl
  · rw [if_neg h0]
    by_cases h1 : (translateBatchRequestTexts texts).length = 0
    · rw [if_pos h1]
    · rw [if_neg h1]
      cases resp with
      | error e => rfl
      | ok response => exact applyTranslations_length _ _ _ _

theorem translateBatch_getElem?_ws (texts : List String) (resp : Except Unit String) (g : Nat)
    (h : nonEmptyPred (texts.getD g "") = false) :
    (translateBatch texts resp)[g]? = texts[g]? := by
  unfold translateBatch
  by_cases h0 : texts.length = 0
  · rw [if_pos h0, (List.length_eq_zero.mp h0)]
  · rw [if_neg h0]
    by_cases h1 : (translateBatchRequestTexts texts).length = 0
    · rw [if_pos h1]
    · rw [if_neg h1]
      cases resp with
      | error e => rfl
      | ok response =>
        apply applyTranslations_getElem?_not_mem
        intro hg
        rcases mem_translateBatchIdxs.mp hg with ⟨t, ht, hpred⟩
        have hget : texts.getD g "" = t := by
          rw [List.getD_eq_getElem?_getD, ht]
          rfl
        rw [hget] at h
        rw [h] at hpred
        exact Bool.false_ne_true hpred

end Trans

/-! ### C10 — whitespace-only texts bypass the model -/

/-- C10: `translateBatch` never includes empty or whitespace-only texts
in the model request (the requested texts are exactly the
truthiness-filtered ones), whitespace-only texts come back unchanged at
their original positions, and when every text is empty or
whitespace-only the whole input list is returned as-is, for every
model oracle — i.e. with no model call at all. -/
theorem C10_translateBatch_whitespace (texts : List String) (resp : Except Unit String) :
    (∀ t, jsTrim t = "" → t ∉ Trans.translateBatchRequestTexts texts) ∧
    (∀ g, g < texts.length → jsTrim (texts.getD g "") = "" →
      (Trans.translateBatch texts resp)[g]? = texts[g]?) ∧
    ((∀ t ∈ texts, jsTrim t = "") →
      ∀ resp', Trans.translateBatch texts resp' = texts) := by
  refine ⟨?_, ?_, ?_⟩
  · intro t htrim hmem
    have hpred := List.of_mem_filter hmem
    unfold Trans.nonEmptyPred at hpred
    rw [htrim] at hpred
    simp at hpred
    exact absurd hpred (by decide)
  · intro g _ htrim
    apply Trans.translateBatch_getElem?_ws
    unfold Trans.nonEmptyPred
    rw [htrim]
    rfl
  · intro hall resp'
    unfold Trans.translateBatch
    by_cases h0 : texts.length = 0
    · rw [if_pos h0]
      exact (List.length_eq_zero.mp h0).symm
    · rw [if_neg h0]
      have h1 : (Trans.translateBatchRequestTexts texts).length = 0 := by
        unfold Trans.translateBatchRequestTexts
        rw [List.length_eq_zero, List.filter_eq_nil_iff]
        intro t ht
        unfold Trans.nonEmptyPred
        rw [hall t ht]
        decide
      rw [if_pos h1]

/-- Witness for C10: a batch of one whitespace text and one real text,
and an all-whitespace batch returned untouched for an arbitrary
oracle. -/
theorem C10_translateBatch_whitespace_witness :
    ((0 : Nat) < 2 ∧ jsTrim (List.getD [" ", "ab"] 0 "") = "" ∧
      (Trans.translateBatch [" ", "ab"] (.ok "X"))[0]? = [" ", "ab"][0]?) ∧
    ((∀ t ∈ [" ", "\t"], jsTrim t = "") ∧
      Trans.translateBatch [" ", "\t"] (.error ()) = [" ", "\t"]) :=
  ⟨⟨by decide, by decide,
     (C10_translateBatch_whitespace [" ", "ab"] (.ok "X")).2.1 0 (by decide) (by decide)⟩,
   ⟨by decide,
     (C10_translateBatch_whitespace [" ", "\t"] (.ok "")).2.2 (by decide) (.error ())⟩⟩

/-! ### Translation service: positional batch writes -/

namespace Trans

theorem setWrites_length (ws : List (Nat × Chunk)) :
    ∀ (arr : List (Option Chunk)), (setWrites arr ws).length = arr.length := by
  induction ws with
  | nil => intro arr; rfl
  | cons p rest ih =>
    intro arr
    show (setWrites (arr.set p.1 (some p.2)) rest).length = arr.length
    rw [ih]
    exact List.length_set _ _ _

theorem setWrites_getElem?_not_mem (ws : List (Nat × Chunk)) :
    ∀ (arr : List (Option Chunk)) (g : Nat), (∀ p ∈ ws, p.1 ≠ g) →
      (setWrites arr ws)[g]? = arr[g]? := by
  induction ws with
  | nil => intro arr g _; rfl
  | cons p rest ih =>
    intro arr g hp
    show (setWrites (arr.set p.1 (some p.2)) rest)[g]? = arr[g]?
    rw [ih _ _ (fun q hq => hp q (List.mem_cons_of_mem _ hq))]
    exact List.getElem?_set_ne (hp p (List.mem_cons_self _ _))

theorem setWrites_getElem?_mem (ws : List (Nat × Chunk)) :
    ∀ (arr : List (Option Chunk)) (g : Nat) (c : Chunk),
      (ws.map Prod.fst).Nodup → (g, c) ∈ ws → g < arr.length →
      (setWrites arr ws)[g]? = some (some c) := by
  induction ws with
  | nil => intro arr g c _ h _; exact absurd h (List.not_mem_nil _)
  | cons p rest ih =>
    intro arr g c hnd hmem hg
    show (setWrites (arr.set p.1 (some p.2)) rest)[g]? = some (some c)
    have hnd' : (p.1 :: rest.map Prod.fst).Nodup := by simpa using hnd
    rcases List.mem_cons.mp hmem with heq | hmem'
    · have hp1 : p.1 = g := by rw [← heq]
      have hp2 : p.2 = c := by rw [← heq]
      have hnotin : ∀ q ∈ rest, q.1 ≠ g := by
        intro q hq hq1
        exact (List.nodup_cons.mp hnd').1
          (by rw [hp1, ← hq1]; exact List.mem_map_of_mem Prod.fst hq)
      rw [setWrites_getElem?_not_mem rest _ g hnotin, hp1, hp2]
      exact List.getElem?_set_self hg
    · exact ih _ _ _ (List.nodup_cons.mp hnd').2 hmem' (by simpa using hg)

theorem batchSlice_length (chunks : List Chunk) (s b : Nat) :
    (batchSlice chunks s b).length = min s (chunks.length - b * s) := by
  unfold batchSlice
  rw [List.length_take, List.length_drop]

theorem batchSlice_getElem? (chunks : List Chunk) (s b i : Nat) (hi : i < s) :
    (batchSlice chunks s b)[i]? = chunks[b * s + i]? := by
  unfold batchSlice
  rw [List.getElem?_take, if_pos hi, List.getElem?_drop]

theorem mem_batchWrites {chunks : List Chunk} {s : Nat} {oracle : Nat → Except Unit String}
    {tl sl : String} {b : Nat} {p : Nat × Chunk} :
    p ∈ batchWrites chunks s oracle tl sl b ↔
      ∃ i c, (batchSlice chunks s b)[i]? = some c ∧
        p = (b * s + i, mkTranslatedChunk tl sl c ((batchResult chunks s oracle b).getD i "")) := by
  unfold batchWrites
  constructor
  · intro h
    rcases List.mem_map.mp h with ⟨q, hq, hqp⟩
    exact ⟨q.1, q.2, List.mem_enum_iff_getElem?.mp hq, hqp.symm⟩
  · rintro ⟨i, c, hic, hp⟩
    exact List.mem_map.mpr ⟨(i, c), List.mem_enum_iff_getElem?.mpr hic, hp.symm⟩

theorem batchWrites_keys_nodup (chunks : List Chunk) (s : Nat)
    (oracle : Nat → Except Unit String) (tl sl : String) (b : Nat) :
    ((batchWrites chunks s oracle tl sl b).map Prod.fst).Nodup := by
  unfold batchWrites
  rw [List.map_map]
  have hcomp : (Prod.fst ∘ fun p : Nat × Chunk =>
      (b * s + p.1, mkTranslatedChunk tl sl p.2 ((batchResult chunks s oracle b).getD p.1 ""))) =
      ((fun i => b * s + i) ∘ Prod.fst) := rfl
  rw [hcomp, ← List.map_map, List.enum_map_fst]
  exact (List.nodup_range _).map (add_right_injective (b * s))

theorem batchWrites_key_mem {chunks : List Chunk} {s : Nat} {oracle : Nat → Except Unit String}
    {tl sl : String} {b : Nat} (hs : 0 < s) {g : Nat} {c : Chunk}
    (h : (g, c) ∈ batchWrites chunks s oracle tl sl b) :
    g / s = b ∧ g < chunks.length ∧ c = canonicalChunkAt chunks s oracle tl sl g := by
  rcases mem_batchWrites.mp h with ⟨i, c', hic, hp⟩
  have hg : g = b * s + i := congrArg Prod.fst hp
  have hc : c = mkTranslatedChunk tl sl c' ((batchResult chunks s oracle b).getD i "") :=
    congrArg Prod.snd hp
  have hi_lt : i < (batchSlice chunks s b).length := (List.getElem?_eq_some.mp hic).1
  rw [batchSlice_length] at hi_lt
  have his : i < s := lt_of_lt_of_le hi_lt (min_le_left _ _)
  have hin : i < chunks.length - b * s := lt_of_lt_of_le hi_lt (min_le_right _ _)
  have hdiv : g / s = b := by
    rw [hg, Nat.mul_comm b s, Nat.mul_add_div hs, Nat.div_eq_of_lt his, Nat.add_zero]
  have hlt : g < chunks.length := by omega
  have hmod : g % s = i := by
    rw [hg, Nat.add_comm, Nat.mul_comm b s, Nat.add_mul_mod_self_left, Nat.mod_eq_of_lt his]
  refine ⟨hdiv, hlt, ?_⟩
  have hcc : chunks[g]? = some c' := by
    rw [hg, ← batchSlice_getElem? chunks s b i his]
    exact hic
  have hcd : chunks.getD g default = c' := by
    rw [List.getD_eq_getElem?_getD, hcc]
    rfl
  rw [hc]
  unfold canonicalChunkAt
  rw [hcd, hdiv, hmod]

theorem canonical_mem_batchWrites {chunks : List Chunk} {s : Nat}
    {oracle : Nat → Except Unit String} {tl sl : String} (hs : 0 < s) {g : Nat}
    (hg : g < chunks.length) :
    (g, canonicalChunkAt chunks s oracle tl sl g) ∈
      batchWrites chunks s oracle tl sl (g / s) := by
  have hback : g / s * s + g % s = g := by
    rw [Nat.mul_comm]
    exact Nat.div_add_mod g s
  apply mem_batchWrites.mpr
  refine ⟨g % s, chunks.getD g default, ?_, ?_⟩
  · rw [batchSlice_getElem? chunks s (g / s) (g % s) (Nat.mod_lt g hs), hback,
      List.getElem?_eq_getElem hg, List.getD_eq_getElem chunks default hg]
  · unfold canonicalChunkAt
    rw [hback]

theorem writeBatch_getElem? (chunks : List Chunk) (s : Nat)
    (oracle : Nat → Except Unit String) (tl sl : String) (hs : 0 < s)
    (arr : List (Option Chunk)) (b g : Nat) (harr : arr.length = chunks.length) :
    (writeBatch chunks s oracle tl sl arr b)[g]? =
      if g / s = b ∧ g < chunks.length
      then some (some (canonicalChunkAt chunks s oracle tl sl g))
      else arr[g]? := by
  unfold writeBatch
  split
  · next hcond =>
    obtain ⟨hb, hg⟩ := hcond
    refine setWrites_getElem?_mem _ _ _ _ (batchWrites_keys_nodup chunks s oracle tl sl b)
      ?_ (by rw [harr]; exact hg)
    rw [← hb]
    exact canonical_mem_batchWrites hs hg
  · next hcond =>
    apply setWrites_getElem?_not_mem
    intro p hp hpg
    rcases batchWrites_key_mem hs (show (p.1, p.2) ∈ batchWrites chunks s oracle tl sl b from hp)
      with ⟨h1, h2, _⟩
    rw [hpg] at h1 h2
    exact hcond ⟨h1, h2⟩

theorem runWrites_getElem? (chunks : List Chunk) (s : Nat)
    (oracle : Nat → Except Unit String) (tl sl : String) (hs : 0 < s) :
    ∀ (order : List Nat) (arr : List (Option Chunk)), arr.length = chunks.length → ∀ (g : Nat),
      (order.foldl (writeBatch chunks s oracle tl sl) arr)[g]? =
        if g / s ∈ order ∧ g < chunks.length
        then some (some (canonicalChunkAt chunks s oracle tl sl g))
        else arr[g]? := by
  intro order
  induction order with
  | nil =>
    intro arr harr g
    simp
  | cons b rest ih =>
    intro arr harr g
    rw [List.foldl_cons]
    have harr' : (writeBatch chunks s oracle tl sl arr b).length = chunks.length := by
      unfold writeBatch
      rw [setWrites_length]
      exact harr
    rw [ih _ harr' g, writeBatch_getElem? chunks s oracle tl sl hs arr b g harr]
    by_cases h1 : g / s ∈ rest ∧ g < chunks.length
    · rw [if_pos h1, if_pos ⟨List.mem_cons_of_mem _ h1.1, h1.2⟩]
    · rw [if_neg h1]
      by_cases h2 : g / s = b ∧ g < chunks.length
      · rw [if_pos h2, if_pos ⟨by rw [h2.1]; exact List.mem_cons_self _ _, h2.2⟩]
      · rw [if_neg h2, if_neg ?_]
        rintro ⟨hmem, hgn⟩
        rcases List.mem_cons.mp hmem with he | hr
        · exact h2 ⟨he, hgn⟩
        · exact h1 ⟨hr, hgn⟩

theorem div_lt_numBatches {s g n : Nat} (hs : 0 < s) (hg : g < n) :
    g / s < numBatches s n := by
  unfold numBatches
  have h1 : n + s - 1 = (n - 1) + s := by omega
  rw [h1, Nat.add_div_right _ hs]
  have h2 : g / s ≤ (n - 1) / s := Nat.div_le_div_right (by omega)
  omega

theorem translateChunksParallel_getElem? (chunks : List Chunk) (s : Nat)
    (oracle : Nat → Except Unit String) (tl sl : String) (order : List Nat) (hs : 0 < s)
    (hperm : order.Perm (List.range (numBatches s chunks.length))) (g : Nat) :
    (translateChunksParallel chunks s oracle tl sl order)[g]? =
      if g < chunks.length then some (canonicalChunkAt chunks s oracle tl sl g) else none := by
  unfold translateChunksParallel runBatches
  rw [List.getElem?_map,
    runWrites_getElem? chunks s oracle tl sl hs order _ (List.length_replicate _ _) g]
  by_cases hg : g < chunks.length
  · have hmem : g / s ∈ order := hperm.mem_iff.mpr (List.mem_range.mpr (div_lt_numBatches hs hg))
    rw [if_pos ⟨hmem, hg⟩, if_pos hg]
    rfl
  · rw [if_neg (fun h => hg h.2), if_neg hg, List.getElem?_replicate, if_neg hg]
    rfl

theorem translateChunksParallel_order_irrelevant (chunks : List Chunk) (s : Nat)
    (oracle : Nat → Except Unit String) (tl sl : String) (order : List Nat) (hs : 0 < s)
    (hperm : order.Perm (List.range (numBatches s chunks.length))) :
    translateChunksParallel chunks s oracle tl sl order =
      translateChunksParallel chunks s oracle tl sl
        (List.range (numBatches s chunks.length)) := by
  apply List.ext_getElem?
  intro g
  rw [translateChunksParallel_getElem? chunks s oracle tl sl order hs hperm g,
    translateChunksParallel_getElem? chunks s oracle tl sl _ hs (List.Perm.refl _) g]

theorem translateChunksParallel_length (chunks : List Chunk) (s : Nat)
    (oracle : Nat → Except Unit String) (tl sl : String) (order : List Nat) :
    (translateChunksParallel chunks s oracle tl sl order).length = chunks.length := by
  unfold translateChunksParallel runBatches
  rw [List.length_map]
  have hfold : ∀ (ord : List Nat) (arr : List (Option Chunk)),
      (ord.foldl (writeBatch chunks s oracle tl sl) arr).length = arr.length := by
    intro ord
    induction ord with
    | nil => intro arr; rfl
    | cons b rest ih =>
      intro arr
      rw [List.foldl_cons, ih]
      unfold writeBatch
      rw [setWrites_length]
  rw [hfold, List.length_replicate]

/-- The success-path shape of `translateBook`: with a non-empty book
and a successful save, the run succeeds and chunk `g` of the output is
the canonical positional translation of source chunk `g`, with its
regenerated embedding attached. -/
theorem translateBook_success_chunks (book : Book) (tl sl : String) (s : Nat)
    (oracle : Nat → Except Unit String) (embedO : List String → List (List ℝ))
    (pdfO : Except Unit Nat) (order : List Nat) (now : Nat)
    (hs : 0 < s) (hne : book.chunks ≠ [])
    (hperm : order.Perm (List.range (numBatches s book.chunks.length))) :
    (translateBook book tl sl s oracle embedO pdfO (.ok ()) order now).success = true ∧
    ∃ tb, (translateBook book tl sl s oracle embedO pdfO (.ok ()) order now).book = some tb ∧
      tb.chunks.length = book.chunks.length ∧
      ∀ g, g < book.chunks.length →
        tb.chunks[g]? = some
          { canonicalChunkAt book.chunks s oracle tl sl g with
            embedding := (embedAll embedO
              ((translateChunksParallel book.chunks s oracle tl sl order).map
                (fun c => c.content))).getD g [] } := by
  have hlen0 : ¬ book.chunks.length = 0 := fun h => hne (List.length_eq_zero.mp h)
  unfold translateBook
  rw [if_neg hlen0]
  refine ⟨rfl, ⟨_, rfl, ?_, ?_⟩⟩
  · show ((translateChunksParallel book.chunks s oracle tl sl order).enum.map _).length = _
    rw [List.length_map, List.enum_length, translateChunksParallel_length]
  · intro g hg
    show ((translateChunksParallel book.chunks s oracle tl sl order).enum.map _)[g]? = _
    rw [List.getElem?_map, List.getElem?_enum,
      translateChunksParallel_getElem? book.chunks s oracle tl sl order hs hperm g, if_pos hg]
    rfl

end Trans

/-! ### C1 — chunk alignment and completion-order independence -/

/-- C1: for a book with non-empty chunks, a successful `translateBook`
returns a book whose chunk list has exactly the source's length, and
position `g` of the output is derived from source chunk `g`: same `id`
and `pageNumber`, content replaced by its batch's positional
translation (`batchResult (g / batchSize)` at offset `g % batchSize`).
The result is the same for every batch completion order: writes land in
a pre-sized array indexed by global position, so any permutation of the
batch indices produces the canonical output. -/
theorem C1_translateBook_alignment_and_order (book : Book) (tl sl : String) (s : Nat)
    (oracle : Nat → Except Unit String) (embedO : List String → List (List ℝ))
    (pdfO : Except Unit Nat) (order : List Nat) (now : Nat)
    (hs : 0 < s) (hne : book.chunks ≠ [])
    (hperm : order.Perm (List.range (Trans.numBatches s book.chunks.length))) :
    (Trans.translateBook book tl sl s oracle embedO pdfO (.ok ()) order now).success = true ∧
    (∃ tb,
      (Trans.translateBook book tl sl s oracle embedO pdfO (.ok ()) order now).book = some tb ∧
      tb.chunks.length = book.chunks.length ∧
      ∀ g, g < book.chunks.length → ∃ c, tb.chunks[g]? = some c ∧
        c.id = (book.chunks.getD g default).id ∧
        c.pageNumber = (book.chunks.getD g default).pageNumber ∧
        c.content = (Trans.batchResult book.chunks s oracle (g / s)).getD (g % s) "") ∧
    Trans.translateBook book tl sl s oracle embedO pdfO (.ok ()) order now =
      Trans.translateBook book tl sl s oracle embedO pdfO (.ok ())
        (List.range (Trans.numBatches s book.chunks.length)) now := by
  obtain ⟨hsucc, tb, htb, hlen, hget⟩ :=
    Trans.translateBook_success_chunks book tl sl s oracle embedO pdfO order now hs hne hperm
  refine ⟨hsucc, ⟨tb, htb, hlen, ?_⟩, ?_⟩
  · intro g hg
    exact ⟨_, hget g hg, rfl, rfl, rfl⟩
  · have hteq :=
      Trans.translateChunksParallel_order_irrelevant book.chunks s oracle tl sl order hs hperm
    unfold Trans.translateBook
    rw [hteq]

/-- Witness for C1: a one-chunk book, batch size 5, completion order
`[0]`. -/
theorem C1_translateBook_alignment_and_order_witness :
    (0 : Nat) < 5 ∧
    ({ id := "b", title := "t",
       chunks := [{ id := "c1", bookId := "b", pageNumber := 1, content := "x",
                    embedding := [] }] } : Book).chunks ≠ [] ∧
    ([0] : List Nat).Perm (List.range (Trans.numBatches 5
      ({ id := "b", title := "t",
         chunks := [{ id := "c1", bookId := "b", pageNumber := 1, content := "x",
                      embedding := [] }] } : Book).chunks.length)) ∧
    (Trans.translateBook
      { id := "b", title := "t",
        chunks := [{ id := "c1", bookId := "b", pageNumber := 1, content := "x",
                     embedding := [] }] }
      "French" "auto" 5 (fun _ => .error ()) (fun _ => []) (.error ()) (.ok ())
      [0] 0).success = true :=
  ⟨by decide, by simp, List.Perm.refl _,
    (C1_translateBook_alignment_and_order
      { id := "b", title := "t",
        chunks := [{ id := "c1", bookId := "b", pageNumber := 1, content := "x",
                     embedding := [] }] }
      "French" "auto" 5 (fun _ => .error ()) (fun _ => []) (.error ()) [0] 0
      (by decide) (by simp) (List.Perm.refl _)).1⟩

/-! ### C8 — single-batch failure isolation -/

/-- C8: if the model call of exactly one batch `j` throws while every
other batch's call resolves, then in `translateBook`'s output the
chunks of batch `j` keep their original untranslated content, every
other chunk's content is its batch's positional translation, and the
overall call still returns `success := true` — the single batch failure
is never promoted to a global failure. -/
theorem C8_single_batch_failure_isolation (book : Book) (tl sl : String) (s : Nat)
    (oracle : Nat → Except Unit String) (embedO : List String → List (List ℝ))
    (pdfO : Except Unit Nat) (order : List Nat) (now j : Nat)
    (hs : 0 < s) (hne : book.chunks ≠ [])
    (hperm : order.Perm (List.range (Trans.numBatches s book.chunks.length)))
    (hfail : oracle j = .error ())
    (_hothers : ∀ b, b < Trans.numBatches s book.chunks.length → b ≠ j →
      ∃ r, oracle b = .ok r) :
    (Trans.translateBook book tl sl s oracle embedO pdfO (.ok ()) order now).success = true ∧
    ∃ tb,
      (Trans.translateBook book tl sl s oracle embedO pdfO (.ok ()) order now).book = some tb ∧
      (∀ g, g < book.chunks.length → g / s = j → ∃ c, tb.chunks[g]? = some c ∧
        c.content = (book.chunks.getD g default).content) ∧
      (∀ g, g < book.chunks.length → ∃ c, tb.chunks[g]? = some c ∧
        c.content = (Trans.batchResult book.chunks s oracle (g / s)).getD (g % s) "") := by
  obtain ⟨hsucc, tb, htb, hlen, hget⟩ :=
    Trans.translateBook_success_chunks book tl sl s oracle embedO pdfO order now hs hne hperm
  refine ⟨hsucc, tb, htb, ?_, ?_⟩
  · intro g hg hj
    refine ⟨_, hget g hg, ?_⟩
    have hres : Trans.batchResult book.chunks s oracle (g / s) =
        Trans.batchTexts book.chunks s (g / s) := by
      unfold Trans.batchResult
      rw [hj, hfail]
      exact Trans.translateBatch_error _ _
    have hmodlt : g % s < s := Nat.mod_lt g hs
    have hback : g / s * s + g % s = g := by
      rw [Nat.mul_comm]
      exact Nat.div_add_mod g s
    have htext : (Trans.batchTexts book.chunks s (g / s))[g % s]? =
        some ((book.chunks.getD g default).content) := by
      unfold Trans.batchTexts
      rw [List.getElem?_map, Trans.batchSlice_getElem? book.chunks s (g / s) (g % s) hmodlt,
        hback, List.getElem?_eq_getElem hg, List.getD_eq_getElem book.chunks default hg]
      rfl
    have hfin : (Trans.batchResult book.chunks s oracle (g / s)).getD (g % s) "" =
        (book.chunks.getD g default).content := by
      rw [hres, List.getD_eq_getElem?_getD, htext]
      rfl
    exact hfin
  · intro g hg
    exact ⟨_, hget g hg, rfl⟩

/-- Witness for C8: two one-chunk batches, the first one's model call
throwing, the second resolving. -/
theorem C8_single_batch_failure_isolation_witness :
    ((fun b => if b = 0 then (Except.error () : Except Unit String) else .ok "Bonjour") 0 =
      Except.error ()) ∧
    (∀ b, b < Trans.numBatches 1
        ({ id := "b", title := "t",
           chunks := [{ id := "c1", bookId := "b", pageNumber := 1, content := "x",
                        embedding := [] },
                      { id := "c2", bookId := "b", pageNumber := 2, content := "y",
                        embedding := [] }] } : Book).chunks.length →
      b ≠ 0 →
      ∃ r, (fun b => if b = 0 then (Except.error () : Except Unit String) else .ok "Bonjour") b =
        .ok r) ∧
    (Trans.translateBook
      { id := "b", title := "t",
        chunks := [{ id := "c1", bookId := "b", pageNumber := 1, content := "x",
                     embedding := [] },
                   { id := "c2", bookId := "b", pageNumber := 2, content := "y",
                     embedding := [] }] }
      "French" "auto" 1
      (fun b => if b = 0 then (Except.error () : Except Unit String) else .ok "Bonjour")
      (fun _ => []) (.error ()) (.ok ()) [0, 1] 0).success = true :=
  ⟨rfl, fun b _ hb => ⟨"Bonjour", if_neg hb⟩,
    (C8_single_batch_failure_isolation
      { id := "b", title := "t",
        chunks := [{ id := "c1", bookId := "b", pageNumber := 1, content := "x",
                     embedding := [] },
                   { id := "c2", bookId := "b", pageNumber := 2, content := "y",
                     embedding := [] }] }
      "French" "auto" 1
      (fun b => if b = 0 then (Except.error () : Except Unit String) else .ok "Bonjour")
      (fun _ => []) (.error ()) [0, 1] 0 0
      (by decide) (by simp) (List.Perm.refl _) rfl
      (fun b _ hb => ⟨"Bonjour", if_neg hb⟩)).1⟩

end ReadAI
